import Mathlib

/-!
Shallow embedding of the MC-TurtleManager Flask server core
(src/Assets/FlaskServer/TurtleController.py, with the WebSocket variant in
TurtleControllerWebSocket.py sharing the same store logic).

The three in-memory stores are modelled as association lists, which keeps the
Python `dict` insertion-order semantics and makes the "at most one entry per
key" property of the block index a real invariant rather than a type-level
triviality.  HTTP/WebSocket plumbing, console logging and the `save_blocks`
file write are boundary collaborators and are not part of the state model.
-/

/-- Restricted universe of JSON scalar values appearing in payload fields. -/
inductive JVal
  | jstr (s : String)
  | jint (n : Int)
  | jbool (b : Bool)
  | jnull
deriving DecidableEq

/-- Python `str()` of a scalar, as used by the f-string building block keys. -/
def pyStr : JVal → String
  | .jstr s => s
  | .jint n => toString n
  | .jbool b => if b then "True" else "False"
  | .jnull => "None"

/-- First-match lookup in an association list (Python dict read). -/
def alookup {κ β : Type} [DecidableEq κ] : List (κ × β) → κ → Option β
  | [], _ => none
  | (k, v) :: t, k2 => if k = k2 then some v else alookup t k2

/-- Python dict assignment: replace in place when the key is present,
append at the end (insertion order) when it is absent. -/
def aupdate {κ β : Type} [DecidableEq κ] : List (κ × β) → κ → β → List (κ × β)
  | [], k, v => [(k, v)]
  | (k2, v2) :: t, k, v => if k2 = k then (k, v) :: t else (k2, v2) :: aupdate t k v

/-- The keys of an association list are pairwise distinct. -/
def nodupKeys {κ β : Type} (m : List (κ × β)) : Prop :=
  (m.map Prod.fst).Nodup

/- ===== CommandQueueManager (`commands = defaultdict(list)`) ===== -/

/-- Per-turtle command queues, keyed by label; payloads are opaque. -/
abbrev CmdMap (α : Type) := List (String × List α)

/-- `defaultdict(list)` item access: reading an absent key inserts an empty
list for it (at the end, per dict insertion order) and returns that list. -/
def ddGet {α : Type} (m : CmdMap α) (l : String) : CmdMap α × List α :=
  match alookup m l with
  | some q => (m, q)
  | none => (m ++ [(l, [])], [])

/-- Response of POST /commands: the body is a constant status/message object
(`{'status': 'ok', 'message': 'Kommandos gequeued'}` or the 400 error). -/
inductive QueueResp
  | ok
  | errNoLabel
deriving DecidableEq

/-- `queue_commands` (POST /commands): `label = data.get("label")`,
`cmds = data.get("commands", [])`; when the label is truthy,
`commands[label].extend(cmds)` (the defaultdict read creates the entry),
else a 400 error. -/
def queue_commands {α : Type} (m : CmdMap α) (label : Option String) (cmds : List α) :
    CmdMap α × QueueResp :=
  match label with
  | none => (m, .errNoLabel)
  | some l =>
    if l = "" then (m, .errNoLabel)
    else (aupdate (ddGet m l).1 l ((ddGet m l).2 ++ cmds), .ok)

/-- `get_all_commands` (GET /commands?label=): the dict access is guarded by
`label and label in commands`, so the defaultdict factory never fires. -/
def get_all_commands {α : Type} (m : CmdMap α) (label : Option String) :
    CmdMap α × List α :=
  match label with
  | none => (m, [])
  | some l =>
    if l = "" then (m, [])
    else
      match alookup m l with
      | some q => (m, q)
      | none => (m, [])

/-- `get_next_command` (GET /command?label=): guarded by
`label and label in commands and commands[label]`; pops the head
(`pop(0)`) when the queue is non-empty, otherwise answers `null`. -/
def get_next_command {α : Type} (m : CmdMap α) (label : Option String) :
    CmdMap α × Option α :=
  match label with
  | none => (m, none)
  | some l =>
    if l = "" then (m, none)
    else
      match alookup m l with
      | none => (m, none)
      | some [] => (m, none)
      | some (c :: rest) => (aupdate m l rest, some c)

/- ===== StatusCache (`turtle_status = {}`) ===== -/

/-- A status snapshot is the raw JSON object the agent posted. -/
abbrev Snapshot := List (String × JVal)

/-- The cache is keyed by the raw value of the snapshot's `label` field. -/
abbrev StatusMap := List (JVal × Snapshot)

/-- Response of POST /status. -/
inductive StatusResp
  | ok
  | badRequest
deriving DecidableEq

/-- `receive_status` (POST /status): rejects a missing body, an empty (falsy)
object, or an object without a `label` key with a 400; otherwise stores the
whole payload under `data['label']`. -/
def receive_status (st : StatusMap) (data : Option Snapshot) : StatusMap × StatusResp :=
  match data with
  | none => (st, .badRequest)
  | some d =>
    if d.isEmpty then (st, .badRequest)
    else
      match alookup d "label" with
      | none => (st, .badRequest)
      | some v => (aupdate st v d, .ok)

/-- WebSocket `handle_turtle_status`: same validation, but silently returns
on invalid data instead of answering an error response. -/
def handle_turtle_status (st : StatusMap) (data : Option Snapshot) : StatusMap :=
  match data with
  | none => st
  | some d =>
    if d.isEmpty then st
    else
      match alookup d "label" with
      | none => st
      | some v => aupdate st v d

/-- `get_status` (GET /status/label): `turtle_status.get(label)`, answering
404 (`none`) when the entry is missing or falsy (an empty object). -/
def get_status (st : StatusMap) (label : String) : Option Snapshot :=
  match alookup st (JVal.jstr label) with
  | none => none
  | some s => if s.isEmpty then none else some s

/- ===== BlockKnowledgeBase (`known_blocks = {}`) ===== -/

/-- A reported block record is the raw JSON object. -/
abbrev BlockRec := List (String × JVal)

/-- The block index, keyed by the coordinate string. -/
abbrev BlockMap := List (String × BlockRec)

/-- The coordinate key `f"{block['x']},{block['y']},{block['z']}"`; `none`
models the KeyError raised when one of the three fields is missing. -/
def keyOf (b : BlockRec) : Option String :=
  match alookup b "x", alookup b "y", alookup b "z" with
  | some x, some y, some z => some (pyStr x ++ "," ++ pyStr y ++ "," ++ pyStr z)
  | _, _, _ => none

/-- Outcome of POST /report: the ok payload carries `new_blocks`, a non-list
body gets a 400, and an ill-formed record raises an unhandled KeyError
(a 500 server error in Flask). -/
inductive ReportResult
  | ok (new_blocks : Nat)
  | badRequest
  | keyError
deriving DecidableEq

/-- Body of POST /report: either a JSON list of records or anything else. -/
inductive ScanInput
  | list (bs : List BlockRec)
  | other

/-- The `for block in data` loop of `receive_scan`: insert each record whose
key is absent, counting insertions; a record without x, y or z raises
KeyError, aborting the loop but keeping the insertions made so far (the
dict is mutated in place). -/
def scanLoop : List BlockRec → BlockMap → Nat → BlockMap × ReportResult
  | [], m, n => (m, .ok n)
  | b :: t, m, n =>
    match keyOf b with
    | none => (m, .keyError)
    | some k =>
      match alookup m k with
      | some _ => scanLoop t m n
      | none => scanLoop t (aupdate m k b) (n + 1)

/-- `receive_scan` (POST /report): `isinstance(data, list)` gate, then the
insertion loop.  The `save_blocks()` file write is a boundary effect. -/
def receive_scan (input : ScanInput) (m : BlockMap) : BlockMap × ReportResult :=
  match input with
  | .list bs => scanLoop bs m 0
  | .other => (m, .badRequest)

/-- `load_blocks` startup loop body: `known_blocks[key] = block` per record;
a record without x, y or z raises inside the `try`, which the
`except Exception` swallows, keeping the entries loaded so far. -/
def load_blocks_loop : List BlockRec → BlockMap → BlockMap
  | [], m => m
  | b :: t, m =>
    match keyOf b with
    | none => m
    | some k => load_blocks_loop t (aupdate m k b)

/-- `load_blocks`: parse the persisted list into the index, starting empty. -/
def load_blocks (data : List BlockRec) : BlockMap :=
  load_blocks_loop data []

/-- `get_scan` (GET /report): `list(known_blocks.values())`. -/
def get_scan (m : BlockMap) : List BlockRec :=
  m.map Prod.snd

/-- Every record of the batch carries x, y and z (well-formedness). -/
def wfBatch (bs : List BlockRec) : Prop :=
  ∀ b ∈ bs, (keyOf b).isSome = true

/-- The distinct coordinate keys of a batch that are absent from the index. -/
def newKeys (m : BlockMap) (bs : List BlockRec) : List String :=
  ((bs.filterMap keyOf).dedup).filter (fun k => (alookup m k).isNone)

instance (bs : List BlockRec) : Decidable (wfBatch bs) :=
  inferInstanceAs (Decidable (∀ b ∈ bs, (keyOf b).isSome = true))

instance {κ β : Type} [DecidableEq κ] (m : List (κ × β)) : Decidable (nodupKeys m) :=
  inferInstanceAs (Decidable ((m.map Prod.fst).Nodup))

/- ===== Concrete payloads used by witnesses and counterexamples ===== -/

/-- A well-formed block record at (1,2,3). -/
def exBlock : BlockRec :=
  [("x", JVal.jint 1), ("y", JVal.jint 2), ("z", JVal.jint 3), ("type", JVal.jstr "stone")]

/-- A second well-formed block record at (4,5,6). -/
def exBlock2 : BlockRec :=
  [("x", JVal.jint 4), ("y", JVal.jint 5), ("z", JVal.jint 6)]

/-- A malformed record: no `x` field. -/
def exBad : BlockRec :=
  [("y", JVal.jint 0), ("z", JVal.jint 1)]

/-- A concrete status snapshot for turtle `t1`. -/
def exSnap : Snapshot :=
  [("label", JVal.jstr "t1"), ("fuelLevel", JVal.jint 80),
   ("maxFuel", JVal.jint 100), ("isBusy", JVal.jbool false)]

/- ===== Association-list lemmas ===== -/

theorem alookup_aupdate_self {κ β : Type} [DecidableEq κ] (m : List (κ × β)) (k : κ) (v : β) :
    alookup (aupdate m k v) k = some v := by
  induction m with
  | nil => simp [aupdate, alookup]
  | cons p t ih =>
    obtain ⟨k2, v2⟩ := p
    by_cases h : k2 = k
    · simp [aupdate, h, alookup]
    · simp [aupdate, h, alookup, ih]

theorem alookup_aupdate_ne {κ β : Type} [DecidableEq κ] (m : List (κ × β)) (k k2 : κ) (v : β)
    (hne : k2 ≠ k) : alookup (aupdate m k v) k2 = alookup m k2 := by
  have hne2 : ¬ k = k2 := fun h => hne h.symm
  induction m with
  | nil => simp [aupdate, alookup, hne2]
  | cons p t ih =>
    obtain ⟨k3, v3⟩ := p
    by_cases h : k3 = k
    · subst h
      simp [aupdate, alookup, hne2]
    · by_cases h2 : k3 = k2 <;> simp [aupdate, alookup, h, h2, ih, hne]

theorem alookup_append {κ β : Type} [DecidableEq κ] (m1 m2 : List (κ × β)) (k : κ) :
    alookup (m1 ++ m2) k =
      match alookup m1 k with
      | some v => some v
      | none => alookup m2 k := by
  induction m1 with
  | nil => simp [alookup]
  | cons p t ih =>
    obtain ⟨k2, v2⟩ := p
    by_cases h : k2 = k <;> simp [alookup, h, ih]

theorem mem_keys_aupdate {κ β : Type} [DecidableEq κ] (m : List (κ × β)) (k a : κ) (v : β)
    (h : a ∈ (aupdate m k v).map Prod.fst) : a ∈ m.map Prod.fst ∨ a = k := by
  induction m with
  | nil =>
    right
    rw [show aupdate ([] : List (κ × β)) k v = [(k, v)] from rfl] at h
    rw [List.map_cons, List.mem_cons] at h
    rcases h with h | h
    · exact h
    · exact absurd h (List.not_mem_nil a)
  | cons p t ih =>
    obtain ⟨k2, v2⟩ := p
    by_cases hk : k2 = k
    · simp only [aupdate, if_pos hk] at h
      rw [List.map_cons, List.mem_cons] at h
      rcases h with h | h
      · exact Or.inr h
      · exact Or.inl (by rw [List.map_cons, List.mem_cons]; exact Or.inr h)
    · simp only [aupdate, if_neg hk] at h
      rw [List.map_cons, List.mem_cons] at h
      rcases h with h | h
      · exact Or.inl (by rw [List.map_cons, List.mem_cons]; exact Or.inl h)
      · rcases ih h with h2 | h2
        · exact Or.inl (by rw [List.map_cons, List.mem_cons]; exact Or.inr h2)
        · exact Or.inr h2

theorem nodupKeys_aupdate {κ β : Type} [DecidableEq κ] (m : List (κ × β)) (k : κ) (v : β)
    (hm : nodupKeys m) : nodupKeys (aupdate m k v) := by
  induction m with
  | nil => simp [nodupKeys, aupdate]
  | cons p t ih =>
    obtain ⟨k2, v2⟩ := p
    simp only [nodupKeys, List.map_cons, List.nodup_cons] at hm
    by_cases hk : k2 = k
    · subst hk
      simpa [nodupKeys, aupdate] using hm
    · have ht := ih hm.2
      have hnotin : k2 ∉ (aupdate t k v).map Prod.fst := by
        intro hmem
        rcases mem_keys_aupdate t k k2 v hmem with h2 | h2
        · exact hm.1 h2
        · exact hk h2
      simp only [nodupKeys, aupdate, if_neg hk, List.map_cons, List.nodup_cons]
      exact ⟨hnotin, ht⟩

theorem isEmpty_false_of_alookup {κ β : Type} [DecidableEq κ] (d : List (κ × β)) (k : κ) (v : β)
    (h : alookup d k = some v) : d.isEmpty = false := by
  cases d with
  | nil => simp [alookup] at h
  | cons p t => simp [List.isEmpty]

/- ===== Generic list lemmas ===== -/

theorem filterCongrOn {α : Type} {p q : α → Bool} :
    ∀ l : List α, (∀ a ∈ l, q a = p a) → l.filter q = l.filter p := by
  intro l
  induction l with
  | nil => intro _; rfl
  | cons a t ih =>
    intro h
    have ha := h a (List.mem_cons_self a t)
    have ht := ih (fun x hx => h x (List.mem_cons_of_mem a hx))
    simp [List.filter, ha, ht]

theorem filterFalseNil {α : Type} {q : α → Bool} :
    ∀ l : List α, (∀ a ∈ l, q a = false) → l.filter q = [] := by
  intro l
  induction l with
  | nil => intro _; rfl
  | cons a t ih =>
    intro h
    have ha := h a (List.mem_cons_self a t)
    have ht := ih (fun x hx => h x (List.mem_cons_of_mem a hx))
    simp [List.filter, ha, ht]

theorem filterLenDrop {α : Type} {p q : α → Bool} :
    ∀ l : List α, l.Nodup → ∀ k, k ∈ l → p k = true → q k = false →
      (∀ a ∈ l, a ≠ k → q a = p a) →
      (l.filter q).length + 1 = (l.filter p).length := by
  intro l
  induction l with
  | nil => intro _ k hk; exact absurd hk (List.not_mem_nil k)
  | cons a t ih =>
    intro hnd k hk hp hq hagree
    have hnd2 := List.nodup_cons.mp hnd
    rcases List.mem_cons.mp hk with h | h
    · subst h
      have ht : t.filter q = t.filter p :=
        filterCongrOn t (fun x hx =>
          hagree x (List.mem_cons_of_mem k hx) (fun hxk => hnd2.1 (hxk ▸ hx)))
      simp [List.filter, hp, hq, ht]
    · have hak : a ≠ k := fun hak => hnd2.1 (hak ▸ h)
      have haq : q a = p a := hagree a (List.mem_cons_self a t) hak
      have hrec := ih hnd2.2 k h hp hq
        (fun x hx hxk => hagree x (List.mem_cons_of_mem a hx) hxk)
      cases hpa : p a with
      | true => simp [List.filter, hpa, haq.trans hpa, hrec]
      | false => simp [List.filter, hpa, haq.trans hpa, hrec]

/- ===== scanLoop lemmas ===== -/

theorem scanLoop_preserves (bs : List BlockRec) :
    ∀ (m : BlockMap) (n : Nat) (k : String) (b : BlockRec),
      alookup m k = some b → alookup (scanLoop bs m n).1 k = some b := by
  induction bs with
  | nil => intro m n k b h; exact h
  | cons b0 t ih =>
    intro m n k b h
    cases hk : keyOf b0 with
    | none => simpa [scanLoop, hk] using h
    | some k0 =>
      cases hm : alookup m k0 with
      | some v =>
        simp only [scanLoop, hk, hm]
        exact ih m n k b h
      | none =>
        simp only [scanLoop, hk, hm]
        apply ih
        have hkk0 : k ≠ k0 := by
          intro he
          rw [he] at h
          rw [h] at hm
          exact (Option.some_ne_none b) hm
        rw [alookup_aupdate_ne m k0 k b0 hkk0]
        exact h

theorem scanLoop_nodup (bs : List BlockRec) :
    ∀ (m : BlockMap) (n : Nat), nodupKeys m → nodupKeys (scanLoop bs m n).1 := by
  induction bs with
  | nil => intro m n h; exact h
  | cons b0 t ih =>
    intro m n h
    cases hk : keyOf b0 with
    | none => simpa [scanLoop, hk] using h
    | some k0 =>
      cases hm : alookup m k0 with
      | some v =>
        simp only [scanLoop, hk, hm]
        exact ih m n h
      | none =>
        simp only [scanLoop, hk, hm]
        exact ih _ _ (nodupKeys_aupdate m k0 b0 h)

theorem scanLoop_mem_isSome (bs : List BlockRec) :
    ∀ (m : BlockMap) (n : Nat) (b : BlockRec) (k : String),
      wfBatch bs → b ∈ bs → keyOf b = some k →
      (alookup (scanLoop bs m n).1 k).isSome = true := by
  induction bs with
  | nil => intro m n b k _ hb; exact absurd hb (List.not_mem_nil b)
  | cons b0 t ih =>
    intro m n b k hwf hb hkb
    have hb0 : (keyOf b0).isSome = true := hwf b0 (List.mem_cons_self b0 t)
    obtain ⟨k0, hk0⟩ := Option.isSome_iff_exists.mp hb0
    have hwt : wfBatch t := fun x hx => hwf x (List.mem_cons_of_mem b0 hx)
    rcases List.mem_cons.mp hb with hbeq | hbt
    · rw [hbeq] at hkb
      cases hm : alookup m k with
      | some v =>
        simp only [scanLoop, hkb, hm]
        rw [scanLoop_preserves t m n k v hm]
        rfl
      | none =>
        simp only [scanLoop, hkb, hm]
        rw [scanLoop_preserves t (aupdate m k b0) (n + 1) k b0 (alookup_aupdate_self m k b0)]
        rfl
    · cases hm : alookup m k0 with
      | some v =>
        simp only [scanLoop, hk0, hm]
        exact ih m n b k hwt hbt hkb
      | none =>
        simp only [scanLoop, hk0, hm]
        exact ih _ _ b k hwt hbt hkb

theorem scanLoop_count (bs : List BlockRec) :
    ∀ (m : BlockMap) (n : Nat), wfBatch bs →
      (scanLoop bs m n).2 = ReportResult.ok (n + (newKeys m bs).length) := by
  induction bs with
  | nil => intro m n _; simp [scanLoop, newKeys]
  | cons b0 t ih =>
    intro m n hwf
    have hb0 : (keyOf b0).isSome = true := hwf b0 (List.mem_cons_self b0 t)
    obtain ⟨k, hk⟩ := Option.isSome_iff_exists.mp hb0
    have hwt : wfBatch t := fun x hx => hwf x (List.mem_cons_of_mem b0 hx)
    have hflt : (b0 :: t).filterMap keyOf = k :: t.filterMap keyOf := by
      simp [List.filterMap_cons, hk]
    cases hm : alookup m k with
    | some v =>
      have hpkf : (alookup m k).isNone = false := by rw [hm]; rfl
      have hlen : newKeys m (b0 :: t) = newKeys m t := by
        unfold newKeys
        rw [hflt]
        by_cases hmem : k ∈ t.filterMap keyOf
        · rw [List.dedup_cons_of_mem hmem]
        · rw [List.dedup_cons_of_not_mem hmem]
          simp [List.filter, hpkf]
      simp only [scanLoop, hk, hm]
      rw [ih m n hwt, hlen]
    | none =>
      have hpk : (alookup m k).isNone = true := by rw [hm]; rfl
      have hagree : ∀ a, a ≠ k →
          (alookup (aupdate m k b0) a).isNone = (alookup m a).isNone := by
        intro a ha
        rw [alookup_aupdate_ne m k a b0 ha]
      have hk2 : (alookup (aupdate m k b0) k).isNone = false := by
        rw [alookup_aupdate_self]; rfl
      simp only [scanLoop, hk, hm]
      rw [ih (aupdate m k b0) (n + 1) hwt]
      congr 1
      unfold newKeys
      rw [hflt]
      by_cases hmem : k ∈ t.filterMap keyOf
      · rw [List.dedup_cons_of_mem hmem]
        have hkd : k ∈ (t.filterMap keyOf).dedup := List.mem_dedup.mpr hmem
        have hnd : (t.filterMap keyOf).dedup.Nodup := List.nodup_dedup _
        have hdrop := filterLenDrop (p := fun a => (alookup m a).isNone)
          (q := fun a => (alookup (aupdate m k b0) a).isNone)
          ((t.filterMap keyOf).dedup) hnd k hkd hpk hk2
          (fun a _ ha => hagree a ha)
        omega
      · rw [List.dedup_cons_of_not_mem hmem]
        have hfeq : ((t.filterMap keyOf).dedup).filter
              (fun a => (alookup (aupdate m k b0) a).isNone)
            = ((t.filterMap keyOf).dedup).filter (fun a => (alookup m a).isNone) := by
          apply filterCongrOn
          intro a ha
          have hak : a ≠ k := fun he => hmem (he ▸ List.mem_dedup.mp ha)
          exact hagree a hak
        have hcons : (k :: (t.filterMap keyOf).dedup).filter
              (fun a => (alookup m a).isNone)
            = k :: ((t.filterMap keyOf).dedup).filter (fun a => (alookup m a).isNone) := by
          simp [List.filter, hpk]
        rw [hfeq, hcons]
        simp only [List.length_cons]
        omega

theorem scanLoop_append_bad (b : BlockRec) (bs2 : List BlockRec) (hb : keyOf b = none) :
    ∀ (bs1 : List BlockRec) (m : BlockMap) (n : Nat), wfBatch bs1 →
      scanLoop (bs1 ++ b :: bs2) m n = ((scanLoop bs1 m n).1, ReportResult.keyError) := by
  intro bs1
  induction bs1 with
  | nil => intro m n _; simp [scanLoop, hb]
  | cons b0 t ih =>
    intro m n hwf
    have hb0 : (keyOf b0).isSome = true := hwf b0 (List.mem_cons_self b0 t)
    obtain ⟨k, hk⟩ := Option.isSome_iff_exists.mp hb0
    have hwt : wfBatch t := fun x hx => hwf x (List.mem_cons_of_mem b0 hx)
    cases hm : alookup m k with
    | some v =>
      simp only [List.cons_append, scanLoop, hk, hm]
      exact ih m n hwt
    | none =>
      simp only [List.cons_append, scanLoop, hk, hm]
      exact ih _ _ hwt

/- ===== Claim theorems ===== -/

/-- C1: for every agent label A (a non-empty string, the only kind the server
accepts as naming an agent) and commands c1, c2, after `queue_commands`
enqueues [c1, c2] on a state where A's queue is empty or absent, the first
`get_next_command` for A returns c1 and the second returns c2: FIFO order
per agent. -/
theorem C1_per_agent_fifo {α : Type} (m : CmdMap α) (A : String) (c1 c2 : α)
    (hA : A ≠ "")
    (hempty : alookup m A = none ∨ alookup m A = some []) :
    (get_next_command (queue_commands m (some A) [c1, c2]).1 (some A)).2 = some c1
    ∧ (get_next_command
        (get_next_command (queue_commands m (some A) [c1, c2]).1 (some A)).1
        (some A)).2 = some c2 := by
  have hm1 : alookup (queue_commands m (some A) [c1, c2]).1 A = some [c1, c2] := by
    rcases hempty with h | h <;>
      simp only [queue_commands, if_neg hA, ddGet, h, List.nil_append] <;>
      exact alookup_aupdate_self _ A [c1, c2]
  have step1 : get_next_command (queue_commands m (some A) [c1, c2]).1 (some A)
      = (aupdate (queue_commands m (some A) [c1, c2]).1 A [c2], some c1) := by
    simp only [get_next_command, if_neg hA, hm1]
  have hm2 : alookup (aupdate (queue_commands m (some A) [c1, c2]).1 A [c2]) A
      = some [c2] := alookup_aupdate_self _ A [c2]
  have step2 : get_next_command
        (aupdate (queue_commands m (some A) [c1, c2]).1 A [c2]) (some A)
      = (aupdate (aupdate (queue_commands m (some A) [c1, c2]).1 A [c2]) A [],
         some c2) := by
    simp only [get_next_command, if_neg hA, hm2]
  constructor
  · rw [step1]
  · rw [step1, step2]

/-- Witness for C1: turtle t1, commands "forward" then "dig". -/
theorem C1_per_agent_fifo_witness :
    (get_next_command
        (queue_commands ([] : CmdMap String) (some "t1") ["forward", "dig"]).1
        (some "t1")).2 = some "forward"
    ∧ (get_next_command
        (get_next_command
          (queue_commands ([] : CmdMap String) (some "t1") ["forward", "dig"]).1
          (some "t1")).1
        (some "t1")).2 = some "dig" :=
  C1_per_agent_fifo ([] : CmdMap String) "t1" "forward" "dig" (by decide) (Or.inl rfl)

/-- C2 counterexample: a batch listing the same unknown block twice.  The
per-record count of blocks whose key was absent before the call is 2, but
the server answers new_blocks = 1, refuting the claim's leading sentence. -/
theorem C2_per_record_count_counterexample :
    (receive_scan (ScanInput.list [exBlock, exBlock]) ([] : BlockMap)).2
      ≠ ReportResult.ok (List.countP
          (fun r => match keyOf r with
            | some k => (alookup ([] : BlockMap) k).isNone
            | none => false) [exBlock, exBlock]) := by
  decide

/-- C2 (amended): for every well-formed batch, receive_scan returns the
number of distinct coordinate keys of the batch that were absent from the
index before the call (so an all-known batch yields 0 and N distinct unknown
coordinates yield N), and immediately re-submitting the identical batch
returns 0. -/
theorem C2_distinct_new_count (m : BlockMap) (bs : List BlockRec)
    (hwf : wfBatch bs) :
    (receive_scan (ScanInput.list bs) m).2 = ReportResult.ok (newKeys m bs).length
    ∧ (receive_scan (ScanInput.list bs) ((receive_scan (ScanInput.list bs) m).1)).2
        = ReportResult.ok 0 := by
  constructor
  · have h := scanLoop_count bs m 0 hwf
    simpa [receive_scan] using h
  · have hall : ∀ k ∈ (bs.filterMap keyOf).dedup,
        (alookup ((receive_scan (ScanInput.list bs) m).1) k).isNone = false := by
      intro k hk
      have hk2 : k ∈ bs.filterMap keyOf := List.mem_dedup.mp hk
      obtain ⟨b, hb, hkb⟩ := List.mem_filterMap.mp hk2
      have hs := scanLoop_mem_isSome bs m 0 b k hwf hb hkb
      obtain ⟨v, hv⟩ := Option.isSome_iff_exists.mp hs
      simp [receive_scan, hv]
    have hnil : newKeys ((receive_scan (ScanInput.list bs) m).1) bs = [] := by
      unfold newKeys
      exact filterFalseNil _ hall
    have hcount := scanLoop_count bs ((receive_scan (ScanInput.list bs) m).1) 0 hwf
    show (scanLoop bs ((receive_scan (ScanInput.list bs) m).1) 0).2 = ReportResult.ok 0
    rw [hcount, hnil]
    rfl

/-- Witness for C2 (amended): two distinct unknown blocks on an empty index. -/
theorem C2_distinct_new_count_witness :
    (receive_scan (ScanInput.list [exBlock, exBlock2]) ([] : BlockMap)).2
        = ReportResult.ok (newKeys ([] : BlockMap) [exBlock, exBlock2]).length
    ∧ (receive_scan (ScanInput.list [exBlock, exBlock2])
        ((receive_scan (ScanInput.list [exBlock, exBlock2]) ([] : BlockMap)).1)).2
        = ReportResult.ok 0 :=
  C2_distinct_new_count ([] : BlockMap) [exBlock, exBlock2] (by decide)

/-- C3 counterexample: the batch [exBlock, exBad], whose second record lacks
the x field, on an empty index.  The call fails, but not with the 400
validation response, and the index is not left unchanged: exBlock has been
inserted before the KeyError was raised. -/
theorem C3_partial_mutation_counterexample :
    (receive_scan (ScanInput.list [exBlock, exBad]) ([] : BlockMap)).1
        ≠ ([] : BlockMap)
    ∧ (receive_scan (ScanInput.list [exBlock, exBad]) ([] : BlockMap)).2
        ≠ ReportResult.badRequest := by
  decide

/-- C3 (amended): a body that is not a list fails with the 400 validation
error and leaves the block index unchanged; a list containing a record that
lacks x, y or z fails with an unhandled KeyError (a server error, not the
validation response), and the insertions made for the records before the
first malformed one are kept, so the index may be partially mutated. -/
theorem C3_error_behavior (m : BlockMap) (bs1 bs2 : List BlockRec) (b : BlockRec)
    (h1 : wfBatch bs1) (hb : keyOf b = none) :
    receive_scan ScanInput.other m = (m, ReportResult.badRequest)
    ∧ receive_scan (ScanInput.list (bs1 ++ b :: bs2)) m
        = ((receive_scan (ScanInput.list bs1) m).1, ReportResult.keyError) := by
  constructor
  · rfl
  · exact scanLoop_append_bad b bs2 hb bs1 m 0 h1

/-- Witness for C3 (amended): one good record before the malformed one. -/
theorem C3_error_behavior_witness :
    receive_scan ScanInput.other ([] : BlockMap)
        = (([] : BlockMap), ReportResult.badRequest)
    ∧ receive_scan (ScanInput.list ([exBlock] ++ exBad :: [])) ([] : BlockMap)
        = ((receive_scan (ScanInput.list [exBlock]) ([] : BlockMap)).1,
           ReportResult.keyError) :=
  C3_error_behavior ([] : BlockMap) [exBlock] [] exBad (by decide) (by decide)

/-- C4 counterexample: enqueueing two commands and enqueueing one command
produce the same constant response, so the response cannot carry the number
of commands appended; the count is only printed to the server log. -/
theorem C4_count_not_returned_counterexample :
    (queue_commands ([] : CmdMap String) (some "t1") ["forward", "dig"]).2
      = (queue_commands ([] : CmdMap String) (some "t1") ["forward"]).2
    ∧ (queue_commands ([] : CmdMap String) (some "t1") ["forward", "dig"]).2
      = QueueResp.ok := by
  decide

/-- C4 (amended): for every non-empty label, queue_commands appends the given
sequence to the tail of that label's queue (creating the queue when absent),
leaves every other label's queue unchanged, and returns the constant success
acknowledgement; the number appended is logged, not returned to the caller. -/
theorem C4_enqueue_appends {α : Type} (m : CmdMap α) (l : String) (cs : List α)
    (hl : l ≠ "") :
    (queue_commands m (some l) cs).2 = QueueResp.ok
    ∧ alookup (queue_commands m (some l) cs).1 l = some ((alookup m l).getD [] ++ cs)
    ∧ ∀ l2, l2 ≠ l → alookup (queue_commands m (some l) cs).1 l2 = alookup m l2 := by
  cases h : alookup m l with
  | some q =>
    refine ⟨by simp [queue_commands, hl], ?_, ?_⟩
    · simp only [queue_commands, if_neg hl, ddGet, h, Option.getD_some]
      exact alookup_aupdate_self m l (q ++ cs)
    · intro l2 hne
      simp only [queue_commands, if_neg hl, ddGet, h]
      exact alookup_aupdate_ne m l l2 (q ++ cs) hne
  | none =>
    refine ⟨by simp [queue_commands, hl], ?_, ?_⟩
    · simp only [queue_commands, if_neg hl, ddGet, h, Option.getD_none, List.nil_append]
      exact alookup_aupdate_self (m ++ [(l, [])]) l cs
    · intro l2 hne
      simp only [queue_commands, if_neg hl, ddGet, h]
      rw [alookup_aupdate_ne (m ++ [(l, [])]) l l2 ([] ++ cs) hne]
      rw [alookup_append m [(l, [])] l2]
      have hln : ¬ l = l2 := fun hh => hne hh.symm
      cases h2 : alookup m l2 with
      | some v => rfl
      | none => simp [alookup, hln]

/-- Witness for C4 (amended): appending to an existing queue. -/
theorem C4_enqueue_appends_witness :
    (queue_commands ([("t1", ["a"])] : CmdMap String) (some "t1") ["b", "c"]).2
        = QueueResp.ok
    ∧ alookup (queue_commands ([("t1", ["a"])] : CmdMap String)
        (some "t1") ["b", "c"]).1 "t1"
        = some ((alookup ([("t1", ["a"])] : CmdMap String) "t1").getD [] ++ ["b", "c"])
    ∧ alookup (queue_commands ([("t1", ["a"])] : CmdMap String)
        (some "t1") ["b", "c"]).1 "t2"
        = alookup ([("t1", ["a"])] : CmdMap String) "t2" :=
  ⟨(C4_enqueue_appends [("t1", ["a"])] "t1" ["b", "c"] (by decide)).1,
   (C4_enqueue_appends [("t1", ["a"])] "t1" ["b", "c"] (by decide)).2.1,
   (C4_enqueue_appends [("t1", ["a"])] "t1" ["b", "c"] (by decide)).2.2 "t2" (by decide)⟩

/-- C5: dequeuing for a label whose queue is empty or was never created
returns the null sentinel and leaves the queue map exactly unchanged; being
a total function, the handler signals no error. -/
theorem C5_dequeue_empty_sentinel {α : Type} (m : CmdMap α) (A : String)
    (h : alookup m A = none ∨ alookup m A = some []) :
    get_next_command m (some A) = (m, (none : Option α)) := by
  by_cases hA : A = ""
  · subst hA
    simp [get_next_command]
  · rcases h with h | h <;> simp [get_next_command, hA, h]

/-- Witness for C5: an unknown label on a non-empty map. -/
theorem C5_dequeue_empty_sentinel_witness :
    get_next_command ([("t1", ["go"])] : CmdMap String) (some "t2")
      = (([("t1", ["go"])] : CmdMap String), (none : Option String)) :=
  C5_dequeue_empty_sentinel [("t1", ["go"])] "t2" (Or.inl (by decide))

/-- C6: upserting a snapshot whose label field holds the id and then reading
that id back returns exactly the stored snapshot object, whatever was stored
before (last-write-wins, no fields dropped or added). -/
theorem C6_upsert_get (st : StatusMap) (d : Snapshot) (tid : String)
    (h : alookup d "label" = some (JVal.jstr tid)) :
    get_status (receive_status st (some d)).1 tid = some d := by
  have hne : d.isEmpty = false := isEmpty_false_of_alookup d "label" (JVal.jstr tid) h
  simp [receive_status, hne, h, get_status,
    alookup_aupdate_self st (JVal.jstr tid) d]

/-- Witness for C6: the exSnap snapshot for turtle t1 on an empty cache. -/
theorem C6_upsert_get_witness :
    get_status (receive_status ([] : StatusMap) (some exSnap)).1 "t1" = some exSnap :=
  C6_upsert_get ([] : StatusMap) exSnap "t1" (by decide)

/-- C7: a snapshot that is empty or lacks the label key is rejected with the
validation error and leaves the cache unchanged (the WebSocket handler
validates identically, silently); a snapshot carrying a label is accepted and
atomically replaces the stored snapshot for that id, leaving every other id
untouched; a missing body is likewise rejected unchanged. -/
theorem C7_upsert_validation (st : StatusMap) (d : Snapshot) :
    (d.isEmpty = true ∨ alookup d "label" = none →
      receive_status st (some d) = (st, StatusResp.badRequest)
      ∧ handle_turtle_status st (some d) = st)
    ∧ (∀ v, alookup d "label" = some v →
      (receive_status st (some d)).2 = StatusResp.ok
      ∧ alookup (receive_status st (some d)).1 v = some d
      ∧ ∀ w, w ≠ v → alookup (receive_status st (some d)).1 w = alookup st w)
    ∧ receive_status st none = (st, StatusResp.badRequest) := by
  refine ⟨?_, ?_, rfl⟩
  · intro h
    rcases h with h | h
    · constructor <;> simp [receive_status, handle_turtle_status, h]
    · cases he : d.isEmpty with
      | true => constructor <;> simp [receive_status, handle_turtle_status, he]
      | false => constructor <;> simp [receive_status, handle_turtle_status, he, h]
  · intro v hv
    have hne : d.isEmpty = false := isEmpty_false_of_alookup d "label" v hv
    refine ⟨by simp [receive_status, hne, hv], ?_, ?_⟩
    · simp [receive_status, hne, hv, alookup_aupdate_self st v d]
    · intro w hw
      simp only [receive_status, hne, hv]
      simp [alookup_aupdate_ne st v w d hw]

/-- Witness for C7: the empty snapshot is rejected on both handlers, and
exSnap is stored under its label value. -/
theorem C7_upsert_validation_witness :
    (receive_status ([] : StatusMap) (some ([] : Snapshot))
        = (([] : StatusMap), StatusResp.badRequest)
      ∧ handle_turtle_status ([] : StatusMap) (some ([] : Snapshot))
        = ([] : StatusMap))
    ∧ ((receive_status ([] : StatusMap) (some exSnap)).2 = StatusResp.ok
      ∧ alookup (receive_status ([] : StatusMap) (some exSnap)).1 (JVal.jstr "t1")
        = some exSnap) :=
  ⟨(C7_upsert_validation ([] : StatusMap) ([] : Snapshot)).1 (Or.inl rfl),
   ((C7_upsert_validation ([] : StatusMap) exSnap).2.1 (JVal.jstr "t1") (by decide)).1,
   ((C7_upsert_validation ([] : StatusMap) exSnap).2.1 (JVal.jstr "t1") (by decide)).2.1⟩

/-- C8: receive_scan preserves the block-index invariant: the key set stays
duplicate-free (at most one stored block per coordinate key) and a block
already stored at a key is never deleted or replaced — a later report of the
same coordinate is a no-op on that entry; load_blocks establishes the
invariant at startup. -/
theorem C8_block_index_invariant (input : ScanInput) (m : BlockMap)
    (hm : nodupKeys m) :
    nodupKeys (receive_scan input m).1
    ∧ (∀ k b, alookup m k = some b → alookup (receive_scan input m).1 k = some b)
    ∧ ∀ data, nodupKeys (load_blocks data) := by
  refine ⟨?_, ?_, ?_⟩
  · cases input with
    | list bs => exact scanLoop_nodup bs m 0 hm
    | other => exact hm
  · intro k b h
    cases input with
    | list bs => exact scanLoop_preserves bs m 0 k b h
    | other => exact h
  · intro data
    have hloop : ∀ (l : List BlockRec) (m0 : BlockMap),
        nodupKeys m0 → nodupKeys (load_blocks_loop l m0) := by
      intro l
      induction l with
      | nil => intro m0 h0; exact h0
      | cons b t ih =>
        intro m0 h0
        cases hk : keyOf b with
        | none => simpa [load_blocks_loop, hk] using h0
        | some k =>
          simp only [load_blocks_loop, hk]
          exact ih _ (nodupKeys_aupdate m0 k b h0)
    exact hloop data [] (by simp [nodupKeys])

/-- Witness for C8: re-reporting the already stored block (1,2,3) together
with a fresh one keeps the old entry and duplicate-free keys. -/
theorem C8_block_index_invariant_witness :
    nodupKeys (receive_scan (ScanInput.list [exBlock, exBlock2])
        ([("1,2,3", exBlock)] : BlockMap)).1
    ∧ alookup (receive_scan (ScanInput.list [exBlock, exBlock2])
        ([("1,2,3", exBlock)] : BlockMap)).1 "1,2,3" = some exBlock
    ∧ nodupKeys (load_blocks [exBlock, exBlock]) :=
  ⟨(C8_block_index_invariant (ScanInput.list [exBlock, exBlock2])
      ([("1,2,3", exBlock)] : BlockMap) (by decide)).1,
   (C8_block_index_invariant (ScanInput.list [exBlock, exBlock2])
      ([("1,2,3", exBlock)] : BlockMap) (by decide)).2.1 "1,2,3" exBlock (by decide),
   (C8_block_index_invariant ScanInput.other ([] : BlockMap)
      (by simp [nodupKeys])).2.2 [exBlock, exBlock]⟩

/-- C9 counterexample: the empty label string is falsy in Python, so
queue_commands rejects it with the 400 error and queues nothing. -/
theorem C9_empty_label_counterexample :
    queue_commands ([] : CmdMap String) (some "") ["forward"]
      = (([] : CmdMap String), QueueResp.errNoLabel) := by
  decide

/-- C9 (amended): every non-empty label string, including ones never seen
before, is accepted on first use and the commands are queued under it; there
is no registry of valid labels, the only rejected labels being the empty or
missing one. -/
theorem C9_any_nonempty_label {α : Type} (m : CmdMap α) (l : String) (cs : List α)
    (hl : l ≠ "") (hnew : alookup m l = none) :
    (queue_commands m (some l) cs).2 = QueueResp.ok
    ∧ alookup (queue_commands m (some l) cs).1 l = some cs := by
  constructor
  · simp [queue_commands, hl]
  · simp only [queue_commands, if_neg hl, ddGet, hnew, List.nil_append]
    exact alookup_aupdate_self (m ++ [(l, [])]) l cs

/-- Witness for C9 (amended): a label never seen before. -/
theorem C9_any_nonempty_label_witness :
    (queue_commands ([] : CmdMap String) (some "brand-new") ["forward"]).2
        = QueueResp.ok
    ∧ alookup (queue_commands ([] : CmdMap String) (some "brand-new")
        ["forward"]).1 "brand-new" = some ["forward"] :=
  C9_any_nonempty_label ([] : CmdMap String) "brand-new" ["forward"] (by decide) rfl

/-- C10: the read-only queries GET /commands and GET /command on a label that
has no entry answer the empty list and the null sentinel, and return the
queue map exactly unchanged: the membership guard keeps the defaultdict
factory from ever creating an entry for the queried label. -/
theorem C10_reads_no_create {α : Type} (m : CmdMap α) (l : String)
    (h : alookup m l = none) :
    get_all_commands m (some l) = (m, ([] : List α))
    ∧ get_next_command m (some l) = (m, (none : Option α)) := by
  by_cases hl : l = ""
  · subst hl
    constructor <;> simp [get_all_commands, get_next_command]
  · constructor <;> simp [get_all_commands, get_next_command, hl, h]

/-- Witness for C10: querying an unknown label leaves the map untouched. -/
theorem C10_reads_no_create_witness :
    get_all_commands ([("t1", ["go"])] : CmdMap String) (some "t9")
      = (([("t1", ["go"])] : CmdMap String), ([] : List String))
    ∧ get_next_command ([("t1", ["go"])] : CmdMap String) (some "t9")
      = (([("t1", ["go"])] : CmdMap String), (none : Option String)) :=
  C10_reads_no_create [("t1", ["go"])] "t9" (by decide)
